import Mathlib

/-!
Verification development for the raycast-relay event-stream transcoder
(`src/index.ts`).  The pure transcoding core is embedded shallowly:

* `parseSSEResponse` / `handleNonStreamingResponse` embed the buffered
  (non-streaming) aggregation path (index.ts lines 163-207 and 519-611).
* `processEvent` / `processPush` / `runPushes` / `handleStreamingResponse`
  embed the streaming path (index.ts lines 358-514).

Upstream SSE input is modelled at line granularity: a line is classified as
a non-`data:` line, a `data:` line whose trimmed payload is the literal
`[DONE]`, a `data:` line whose payload fails `JSON.parse`, or a `data:`
line whose payload parses to a `RaycastSSEData` value.  Byte pushes are
modelled as lists of complete lines (the TextDecoder/newline re-assembly of
the frame reader is below the granularity of the claims considered here).
JavaScript `undefined` is modelled as `Option.none`; for `finish_reason`,
which distinguishes `undefined` from `null`, the type is
`Option (Option String)` with `none` = undefined and `some none` = null.
The per-chunk `id`/`created`/`model` wrapper fields (uuid, clock, echoed
model id) carry no transcoding logic and are omitted from the chunk model.
-/

/-- The `function` sub-object of a tool-call entry in Raycast SSE data
(`types.ts`, `RaycastSSEData.tool_calls[].function`). -/
structure ToolCallFunctionField where
  name : Option String
  arguments : Option String
deriving DecidableEq, Repr

/-- One entry of `RaycastSSEData.tool_calls` (`types.ts` lines 113-122). -/
structure SSEToolCall where
  id : Option String
  index : Option Nat
  name : Option String
  arguments : Option String
  function : Option ToolCallFunctionField
deriving DecidableEq, Repr

/-- A decoded upstream event (`types.ts`, `RaycastSSEData`).
`finish_reason : Option (Option String)`: `none` = key absent (undefined),
`some none` = JSON `null`, `some (some s)` = the string `s`. -/
structure RaycastSSEData where
  text : Option String
  finish_reason : Option (Option String)
  tool_calls : Option (List SSEToolCall)
deriving DecidableEq, Repr

/-- Classification of one upstream line, after the `trim()` and
`startsWith("data:")` / `substring(5).trim()` handling both consumers
perform (index.ts lines 174-179 and 390-399). -/
inductive SSELine where
  /-- A blank line or one not starting with the `data:` prefix. -/
  | notData : SSELine
  /-- A `data:` line whose trimmed payload is the literal `[DONE]`. -/
  | doneMarker : SSELine
  /-- A `data:` line whose payload fails `JSON.parse`. -/
  | malformed : SSELine
  /-- A `data:` line whose payload parses to the given event. -/
  | event : RaycastSSEData → SSELine
deriving DecidableEq, Repr

/-- JavaScript truthiness of a possibly-undefined string:
`undefined` and `""` are falsy. -/
def jsTruthy : Option String → Bool
  | some s => s != ""
  | none => false

/-- The string value of a possibly-undefined string field (used where the
code has already established definedness). -/
def jsStr (o : Option String) : String := o.getD ""

/-- JavaScript `a || b` on possibly-undefined strings. -/
def jsOr (a b : Option String) : Option String := if jsTruthy a then a else b

/-- JavaScript truthiness of the raw `finish_reason` value
(`undefined`, `null` and `""` are falsy). -/
def finishTruthy : Option (Option String) → Bool
  | some (some s) => s != ""
  | _ => false

/-! ## Buffered mode: `parseSSEResponse` (index.ts lines 163-207) -/

/-- One extracted `{id, name, arguments}` tool-call record
(the element type of `parseSSEResponse`'s `toolCalls`). -/
structure ParsedToolCall where
  id : String
  name : String
  arguments : String
deriving DecidableEq, Repr

/-- The accumulator / result of `parseSSEResponse`:
`{ fullText, finishReason, toolCalls }`. -/
structure ParseAcc where
  fullText : String
  finishReason : Option String
  toolCalls : Option (List ParsedToolCall)
deriving DecidableEq, Repr

/-- `tc.name || (tc.function && tc.function.name)` (index.ts line 191). -/
def resolveName (tc : SSEToolCall) : Option String :=
  jsOr tc.name (tc.function.bind ToolCallFunctionField.name)

/-- `tc.arguments || (tc.function && tc.function.arguments)`
(index.ts line 192). -/
def resolveArgs (tc : SSEToolCall) : Option String :=
  jsOr tc.arguments (tc.function.bind ToolCallFunctionField.arguments)

/-- The map + filter of index.ts lines 189-193: build
`{id: tc.id!, name: ..., arguments: ...}` and keep it when
`tc.id && tc.name && tc.arguments !== undefined`. -/
def parseEntry (tc : SSEToolCall) : Option ParsedToolCall :=
  let n := resolveName tc
  let a := resolveArgs tc
  if jsTruthy tc.id && jsTruthy n && a.isSome then
    some ⟨jsStr tc.id, jsStr n, jsStr a⟩
  else
    none

/-- Effect of one decoded event on the `parseSSEResponse` accumulator
(index.ts lines 181-200). -/
def parseEvent (acc : ParseAcc) (e : RaycastSSEData) : ParseAcc :=
  let acc1 :=
    if jsTruthy e.text then
      { acc with fullText := acc.fullText ++ jsStr e.text }
    else acc
  let acc2 :=
    match e.finish_reason with
    | some (some s) => { acc1 with finishReason := some s }
    | _ => acc1
  if e.finish_reason = some (some "tool_calls") ∧ e.tool_calls.getD [] ≠ [] then
    let parsed := (e.tool_calls.getD []).filterMap parseEntry
    if parsed ≠ [] then { acc2 with toolCalls := some parsed } else acc2
  else acc2

/-- Effect of one upstream line on the accumulator: non-`data:` lines,
`[DONE]` lines and unparsable lines leave it unchanged
(index.ts lines 174-177 and the catch at 201-203). -/
def parseLine (acc : ParseAcc) (l : SSELine) : ParseAcc :=
  match l with
  | .event e => parseEvent acc e
  | _ => acc

/-- `parseSSEResponse` over the sequence of upstream lines. -/
def parseSSEResponse (lines : List SSELine) : ParseAcc :=
  lines.foldl parseLine ⟨"", none, none⟩

/-! ## Buffered mode: `handleNonStreamingResponse` (index.ts lines 519-611) -/

/-- The `function` sub-object of an outgoing OpenAI tool call. -/
structure OutFunctionField where
  name : String
  arguments : String
deriving DecidableEq, Repr

/-- An outgoing `{ id, type: "function", function: { name, arguments } }`
tool call (index.ts lines 542-549). -/
structure OutToolCall where
  id : String
  type : String
  function : OutFunctionField
deriving DecidableEq, Repr

/-- `tc => ({ id, type: "function", function: { name, arguments } })`. -/
def toOutToolCall (tc : ParsedToolCall) : OutToolCall :=
  ⟨tc.id, "function", ⟨tc.name, tc.arguments⟩⟩

/-- The final buffered message: `content` is `none` for JSON `null`;
`tool_calls = none` means the key is absent (vs. present-but-empty). -/
structure FinalMessage where
  content : Option String
  tool_calls : Option (List OutToolCall)
deriving DecidableEq, Repr

/-- The parts of the buffered response the claims concern:
`choices[0].message` and `choices[0].finish_reason`. -/
structure NonStreamingResult where
  message : FinalMessage
  finish_reason : String
deriving DecidableEq, Repr

/-- `handleNonStreamingResponse` (index.ts lines 519-611): parse the full
SSE text, fold `finishReason || "stop"`, and build the final message. -/
def handleNonStreamingResponse (lines : List SSELine) : NonStreamingResult :=
  let r := parseSSEResponse lines
  let finalFinishReason := jsStr (jsOr r.finishReason (some "stop"))
  if finalFinishReason = "tool_calls" then
    let tcs :=
      if r.toolCalls.getD [] ≠ [] then (r.toolCalls.getD []).map toOutToolCall
      else []
    ⟨⟨none, some tcs⟩, finalFinishReason⟩
  else if r.toolCalls.getD [] ≠ [] then
    ⟨⟨none, some ((r.toolCalls.getD []).map toOutToolCall)⟩, finalFinishReason⟩
  else
    ⟨⟨some r.fullText, none⟩, finalFinishReason⟩

/-! ## Streaming mode: `handleStreamingResponse` (index.ts lines 358-514) -/

/-- The `function` sub-object of an outgoing tool-call delta entry; each
field is present only when set (index.ts lines 421-431). -/
structure DeltaFunctionField where
  name : Option String
  arguments : Option String
deriving DecidableEq, Repr

/-- One outgoing `delta.tool_calls` entry (index.ts lines 418-439):
`index` and `type` always present, `id` and `function` optional. -/
structure DeltaToolCall where
  index : Nat
  type : String
  id : Option String
  function : Option DeltaFunctionField
deriving DecidableEq, Repr

/-- The sparse `delta` object of an outgoing chunk.  `content` is
`Option (Option String)`: `none` = key absent, `some none` = explicit
`null`, `some (some s)` = the string `s`. -/
structure Delta where
  role : Option String
  content : Option (Option String)
  tool_calls : Option (List DeltaToolCall)
deriving DecidableEq, Repr

/-- The transcoding-relevant parts of an outgoing chunk:
`choices[0].delta` and `choices[0].finish_reason`. -/
structure OpenAIChunk where
  delta : Delta
  finish_reason : Option String
deriving DecidableEq, Repr

/-- Per-request streaming state: `streamFinished` and
`hasSentRoleAssistant` (index.ts lines 376-377). -/
structure StreamState where
  streamFinished : Bool
  hasSentRoleAssistant : Bool
deriving DecidableEq, Repr

/-- One item of the outgoing stream: a chunk record, or the terminal
`data: [DONE]` marker. -/
inductive StreamItem where
  | chunk : OpenAIChunk → StreamItem
  | terminalMarker : StreamItem
deriving DecidableEq, Repr

/-- The per-fragment mapping of index.ts lines 411-440: a fragment lacking
`index` or `function` is skipped; otherwise `{index, type: "function"}`
plus optional `id` (when truthy and non-empty) and optional `function`
(the present `name`/`arguments` keys, or an empty shell when the fragment
carries a truthy `id` but neither key). -/
def mapToolCallFragment (tc : SSEToolCall) : Option DeltaToolCall :=
  match tc.index, tc.function with
  | some idx, some fn =>
    let idField := if jsTruthy tc.id && tc.id != some "" then tc.id else none
    let hasFuncContent := fn.name.isSome || fn.arguments.isSome
    let funcField : Option DeltaFunctionField :=
      if hasFuncContent then some ⟨fn.name, fn.arguments⟩
      else if jsTruthy tc.id && tc.id != some "" then some ⟨none, none⟩
      else none
    some ⟨idx, "function", idField, funcField⟩
  | _, _ => none

/-- The first-content-bearing-event test of index.ts line 403:
`!hasSentRoleAssistant && (jsonData.text !== undefined ||
(jsonData.tool_calls && jsonData.tool_calls.length > 0))`. -/
def roleCondition (s : StreamState) (e : RaycastSSEData) : Bool :=
  !s.hasSentRoleAssistant && (e.text.isSome || e.tool_calls.getD [] != [])

/-- The `delta.tool_calls` field for one event (index.ts lines 408-445):
set only when the event carries a non-empty `tool_calls` array, its
`finish_reason` is not `"tool_calls"`, and at least one fragment survives
`mapToolCallFragment`. -/
def deltaToolCallsOf (e : RaycastSSEData) : Option (List DeltaToolCall) :=
  if e.tool_calls.getD [] ≠ [] ∧ e.finish_reason ≠ some (some "tool_calls")
  then
    let mapped := (e.tool_calls.getD []).filterMap mapToolCallFragment
    if mapped ≠ [] then some mapped else none
  else none

/-- The `delta.content` field for one event (index.ts lines 447-463):
explicit `null` when tool-call deltas open with the role; otherwise the
`text` value, except that a terminal event's empty text sets no key. -/
def deltaContentOf (s : StreamState) (e : RaycastSSEData) :
    Option (Option String) :=
  if (deltaToolCallsOf e).isSome then
    if roleCondition s e then some none else none
  else
    match e.text with
    | some t =>
      if finishTruthy e.finish_reason ∧ t = "" then none else some (some t)
    | none => none

/-- The full sparse `delta` object built for one event
(index.ts lines 400-463). -/
def deltaOf (s : StreamState) (e : RaycastSSEData) : Delta :=
  ⟨if roleCondition s e then some "assistant" else none,
   deltaContentOf s e, deltaToolCallsOf e⟩

/-- Processing of one decoded event (index.ts lines 399-488): build the
sparse delta, normalize `finish_reason` (`undefined → null`), emit a chunk
iff the delta is non-empty or the finish reason is non-null, and set
`streamFinished` on a non-null finish reason. -/
def processEvent (s : StreamState) (e : RaycastSSEData) :
    StreamState × Option OpenAIChunk :=
  let delta := deltaOf s e
  let finishReasonForChunk : Option String := e.finish_reason.join
  let emit := delta.role.isSome || delta.content.isSome ||
    delta.tool_calls.isSome || finishReasonForChunk.isSome
  (⟨s.streamFinished || finishReasonForChunk.isSome,
    s.hasSentRoleAssistant || roleCondition s e⟩,
   if emit then some ⟨delta, finishReasonForChunk⟩ else none)

/-- Processing of one upstream line in streaming mode: non-`data:` lines
and `[DONE]` lines are skipped (index.ts lines 393-395), unparsable
payloads are dropped by the catch (lines 489-491), events are processed. -/
def processLine (s : StreamState) (l : SSELine) :
    StreamState × Option OpenAIChunk :=
  match l with
  | .event e => processEvent s e
  | _ => (s, none)

/-- Processing of one byte push: the inner `while` of index.ts lines
389-493 drains every complete line of the buffer, with no intervening
check of `streamFinished`. -/
def processPush (s : StreamState) : List SSELine → StreamState × List OpenAIChunk
  | [] => (s, [])
  | l :: ls =>
    let p := processLine s l
    let rest := processPush p.1 ls
    (rest.1, p.2.toList ++ rest.2)

/-- The outer `while (!streamFinished)` read loop of index.ts lines
380-494: before each read the flag is checked; a push, once read, is
processed in full. -/
def runPushes (s : StreamState) : List (List SSELine) → StreamState × List OpenAIChunk
  | [] => (s, [])
  | p :: rest =>
    if s.streamFinished then (s, [])
    else
      let r := processPush s p
      let r2 := runPushes r.1 rest
      (r2.1, r.2 ++ r2.2)

/-- `handleStreamingResponse` (index.ts lines 358-514) at the level of the
outgoing record sequence: the chunks produced by the read loop, followed by
the single terminal `data: [DONE]` marker (line 496). -/
def handleStreamingResponse (pushes : List (List SSELine)) : List StreamItem :=
  ((runPushes ⟨false, false⟩ pushes).2.map StreamItem.chunk) ++
    [StreamItem.terminalMarker]

/-! ## Helper lemmas: lines that are skipped -/

/-- Lines that carry no decoded event: blank / non-`data:` lines, `[DONE]`
lines, and lines whose payload fails to parse. -/
def SSELine.isSkipped : SSELine → Bool
  | .event _ => false
  | _ => true

theorem parseLine_skipped (acc : ParseAcc) (l : SSELine)
    (h : l.isSkipped = true) : parseLine acc l = acc := by
  cases l <;> simp_all [parseLine, SSELine.isSkipped]

theorem processLine_skipped (s : StreamState) (l : SSELine)
    (h : l.isSkipped = true) : processLine s l = (s, none) := by
  cases l <;> simp_all [processLine, SSELine.isSkipped]

theorem parse_insert_skipped (l1 l2 : List SSELine) (x : SSELine)
    (h : x.isSkipped = true) :
    parseSSEResponse (l1 ++ x :: l2) = parseSSEResponse (l1 ++ l2) := by
  unfold parseSSEResponse
  rw [List.foldl_append, List.foldl_append, List.foldl_cons,
    parseLine_skipped _ _ h]

theorem processPush_insert_skipped (s : StreamState) (l1 l2 : List SSELine)
    (x : SSELine) (h : x.isSkipped = true) :
    processPush s (l1 ++ x :: l2) = processPush s (l1 ++ l2) := by
  induction l1 generalizing s with
  | nil => simp [processPush, processLine_skipped _ _ h]
  | cons a l1 ih => simp [processPush, ih]

theorem runPushes_insert_skipped (s : StreamState)
    (P1 P2 : List (List SSELine)) (l1 l2 : List SSELine) (x : SSELine)
    (h : x.isSkipped = true) :
    runPushes s (P1 ++ (l1 ++ x :: l2) :: P2) =
      runPushes s (P1 ++ (l1 ++ l2) :: P2) := by
  induction P1 generalizing s with
  | nil => simp [runPushes, processPush_insert_skipped _ _ _ _ h]
  | cons p P1 ih => simp [runPushes, ih]

/-! ## C1 -/

/-- C1, counterexample: a push whose lines carry `{finish_reason:"stop"}`
and then `{text:"X"}` makes the code emit a chunk (`delta.content = "X"`)
AFTER the finishing chunk: the inner line loop of index.ts lines 389-493
never consults `streamFinished`, so events arriving in the same byte push
as the finishing event are still processed and forwarded. -/
theorem finishReason_not_final_within_push :
    handleStreamingResponse
        [[SSELine.event ⟨none, some (some "stop"), none⟩,
          SSELine.event ⟨some "X", none, none⟩]] =
      [StreamItem.chunk ⟨⟨none, none, none⟩, some "stop"⟩,
       StreamItem.chunk ⟨⟨some "assistant", some (some "X"), none⟩, none⟩,
       StreamItem.terminalMarker] := by decide

/-- C1, amended: once the read loop's state records a processed non-null
`finish_reason` (`streamFinished = true` after some pushes), no chunk is
emitted for any continuation of the upstream push sequence: later byte
pushes are never read.  (Events arriving later in the same byte push as
the finishing event are outside this guarantee: they are still
processed.) -/
theorem finishReason_stops_later_pushes (s : StreamState)
    (pushes rest : List (List SSELine))
    (h : (runPushes s pushes).1.streamFinished = true) :
    (runPushes s (pushes ++ rest)).2 = (runPushes s pushes).2 := by
  induction pushes generalizing s with
  | nil =>
    cases rest with
    | nil => rfl
    | cons r rs => simp [runPushes] at h ⊢; simp [h]
  | cons p ps ih =>
    by_cases hs : s.streamFinished
    · simp [runPushes, hs]
    · simp only [runPushes, if_neg hs, List.cons_append] at h ⊢
      congr 1
      exact ih _ h

/-- C1, witness for `finishReason_stops_later_pushes`: after a push whose
event bears `finish_reason:"stop"`, a later push with a text event yields
no further chunks. -/
theorem finishReason_stops_later_pushes_witness :
    (runPushes ⟨false, false⟩
        [[SSELine.event ⟨none, some (some "stop"), none⟩]]).1.streamFinished
        = true ∧
      (runPushes ⟨false, false⟩
          ([[SSELine.event ⟨none, some (some "stop"), none⟩]] ++
            [[SSELine.event ⟨some "X", none, none⟩]])).2 =
        (runPushes ⟨false, false⟩
            [[SSELine.event ⟨none, some (some "stop"), none⟩]]).2 :=
  ⟨by decide,
   finishReason_stops_later_pushes ⟨false, false⟩
     [[SSELine.event ⟨none, some (some "stop"), none⟩]]
     [[SSELine.event ⟨some "X", none, none⟩]] (by decide)⟩

/-! ## C2 -/

/-- C2, counterexample: after a `data: [DONE]` line, frame production does
NOT terminate — both consumers execute `continue` (index.ts lines 177 and
395), so a following `data: {"text":"X"}` line of the same request is
still decoded and forwarded: buffered parsing accumulates `"X"` and the
streaming path emits a content chunk for it. -/
theorem doneMarker_does_not_terminate :
    (parseSSEResponse
        [SSELine.doneMarker, SSELine.event ⟨some "X", none, none⟩]).fullText
        = "X" ∧
      handleStreamingResponse
          [[SSELine.doneMarker, SSELine.event ⟨some "X", none, none⟩]] =
        [StreamItem.chunk ⟨⟨some "assistant", some (some "X"), none⟩, none⟩,
         StreamItem.terminalMarker] := by decide

/-- C2, amended: a line whose payload (after the `data:` prefix, trimmed)
is the literal `[DONE]` is skipped without emitting a record, and
processing continues with the remaining lines unchanged, in both buffered
and streaming modes (deleting the line from the input leaves every output
identical). -/
theorem doneMarker_skipped_sequence_continues (s : StreamState)
    (l1 l2 : List SSELine) (P1 P2 : List (List SSELine)) :
    parseSSEResponse (l1 ++ SSELine.doneMarker :: l2) =
        parseSSEResponse (l1 ++ l2) ∧
      processPush s (l1 ++ SSELine.doneMarker :: l2) =
        processPush s (l1 ++ l2) ∧
      handleStreamingResponse (P1 ++ (l1 ++ SSELine.doneMarker :: l2) :: P2) =
        handleStreamingResponse (P1 ++ (l1 ++ l2) :: P2) :=
  ⟨parse_insert_skipped l1 l2 SSELine.doneMarker rfl,
   processPush_insert_skipped s l1 l2 SSELine.doneMarker rfl,
   by unfold handleStreamingResponse
      rw [runPushes_insert_skipped ⟨false, false⟩ P1 P2 l1 l2
        SSELine.doneMarker rfl]⟩

/-! ## C9 -/

/-- C9, confirmed: a `data:` line whose payload is not parseable JSON is
dropped (the catch blocks at index.ts lines 201-203 and 489-491) and every
subsequent line of the same request is still processed, in both modes:
deleting the malformed line from the input leaves every output
identical — the parse failure never aborts the sequence. -/
theorem malformed_record_dropped_sequence_continues (s : StreamState)
    (l1 l2 : List SSELine) (P1 P2 : List (List SSELine)) :
    parseSSEResponse (l1 ++ SSELine.malformed :: l2) =
        parseSSEResponse (l1 ++ l2) ∧
      processPush s (l1 ++ SSELine.malformed :: l2) =
        processPush s (l1 ++ l2) ∧
      handleStreamingResponse (P1 ++ (l1 ++ SSELine.malformed :: l2) :: P2) =
        handleStreamingResponse (P1 ++ (l1 ++ l2) :: P2) :=
  ⟨parse_insert_skipped l1 l2 SSELine.malformed rfl,
   processPush_insert_skipped s l1 l2 SSELine.malformed rfl,
   by unfold handleStreamingResponse
      rw [runPushes_insert_skipped ⟨false, false⟩ P1 P2 l1 l2
        SSELine.malformed rfl]⟩

/-! ## C4 -/

/-- C4, confirmed: for the upstream sequence `{text:"Hel"}`, `{text:"lo"}`,
`{text:"", finish_reason:"stop"}`, streaming mode emits exactly three
chunks — role + `content:"Hel"`, then `content:"lo"`, then a chunk with no
`content` key and `finish_reason:"stop"` — followed by the terminal
marker; buffered mode produces `content:"Hello"` with
`finish_reason:"stop"`. -/
theorem hello_stop_scenario :
    handleStreamingResponse
        [[SSELine.event ⟨some "Hel", none, none⟩],
         [SSELine.event ⟨some "lo", none, none⟩],
         [SSELine.event ⟨some "", some (some "stop"), none⟩]] =
      [StreamItem.chunk
         ⟨⟨some "assistant", some (some "Hel"), none⟩, none⟩,
       StreamItem.chunk ⟨⟨none, some (some "lo"), none⟩, none⟩,
       StreamItem.chunk ⟨⟨none, none, none⟩, some "stop"⟩,
       StreamItem.terminalMarker] ∧
      handleNonStreamingResponse
          [SSELine.event ⟨some "Hel", none, none⟩,
           SSELine.event ⟨some "lo", none, none⟩,
           SSELine.event ⟨some "", some (some "stop"), none⟩] =
        ⟨⟨some "Hello", none⟩, "stop"⟩ := by decide

/-! ## C6 -/

/-- C6, confirmed: for every streaming event whose `finish_reason` is the
string `"tool_calls"`, the guard at index.ts line 410 suppresses its
`tool_calls` field entirely: whatever chunk is emitted for that event has
no `delta.tool_calls` key. -/
theorem terminal_summary_never_forwarded_as_delta (s : StreamState)
    (e : RaycastSSEData) (c : OpenAIChunk)
    (hf : e.finish_reason = some (some "tool_calls"))
    (hc : (processEvent s e).2 = some c) :
    c.delta.tool_calls = none := by
  have htc : deltaToolCallsOf e = none := by
    simp [deltaToolCallsOf, hf]
  simp only [processEvent] at hc
  split at hc
  · cases hc
    simpa [deltaOf] using htc
  · cases hc

/-- C6, witness: a concrete terminal-summary event (non-empty `tool_calls`,
`finish_reason:"tool_calls"`) still emits a chunk, and that chunk carries
no `delta.tool_calls`. -/
theorem terminal_summary_never_forwarded_as_delta_witness :
    (processEvent ⟨false, false⟩
        ⟨none, some (some "tool_calls"),
         some [⟨some "call_1", none, some "f", some "{}", none⟩]⟩).2 =
      some ⟨⟨some "assistant", none, none⟩, some "tool_calls"⟩ ∧
    (⟨⟨some "assistant", none, none⟩, some "tool_calls"⟩ :
        OpenAIChunk).delta.tool_calls = none :=
  ⟨by decide,
   terminal_summary_never_forwarded_as_delta ⟨false, false⟩
     ⟨none, some (some "tool_calls"),
      some [⟨some "call_1", none, some "f", some "{}", none⟩]⟩
     ⟨⟨some "assistant", none, none⟩, some "tool_calls"⟩ rfl (by decide)⟩

/-! ## C5 -/

/-- C5, confirmed: for every streaming event whose `finish_reason` is not
`"tool_calls"` and every fragment of its `tool_calls` that has both an
`index` and a `function` sub-object, the outgoing delta entry (which does
appear in the emitted chunk's `delta.tool_calls`) carries that `index` and
`type:"function"`; carries `id` exactly when the fragment's `id` is
present and non-empty; carries the `function` sub-object with exactly the
`name`/`arguments` keys present on the fragment's `function` when at least
one is present; and carries an empty `function` shell when neither is
present but the fragment carries a non-empty `id`. -/
theorem intermediate_fragment_delta_shape (s : StreamState)
    (e : RaycastSSEData) (l : List SSEToolCall) (tc : SSEToolCall)
    (idx : Nat) (fn : ToolCallFunctionField)
    (hf : e.finish_reason ≠ some (some "tool_calls"))
    (hl : e.tool_calls = some l) (htc : tc ∈ l)
    (hidx : tc.index = some idx) (hfn : tc.function = some fn) :
    ∃ entry : DeltaToolCall,
      mapToolCallFragment tc = some entry ∧
      (∃ c cs, (processEvent s e).2 = some c ∧
        c.delta.tool_calls = some cs ∧ entry ∈ cs) ∧
      entry.index = idx ∧
      entry.type = "function" ∧
      (∀ x : String, entry.id = some x ↔ tc.id = some x ∧ x ≠ "") ∧
      ((fn.name.isSome ∨ fn.arguments.isSome) →
        entry.function = some ⟨fn.name, fn.arguments⟩) ∧
      (fn.name = none → fn.arguments = none →
        ∀ x : String, tc.id = some x → x ≠ "" →
          entry.function = some ⟨none, none⟩) := by
  have hlne : l ≠ [] := List.ne_nil_of_mem htc
  have hmap : mapToolCallFragment tc = some
      ⟨idx, "function",
       if jsTruthy tc.id && tc.id != some "" then tc.id else none,
       if fn.name.isSome || fn.arguments.isSome then
         some ⟨fn.name, fn.arguments⟩
       else if jsTruthy tc.id && tc.id != some "" then some ⟨none, none⟩
       else none⟩ := by
    simp [mapToolCallFragment, hidx, hfn]
  refine ⟨_, hmap, ?_, rfl, rfl, ?_, ?_, ?_⟩
  · have hmem : (⟨idx, "function", _, _⟩ : DeltaToolCall) ∈
        l.filterMap mapToolCallFragment :=
      List.mem_filterMap.mpr ⟨tc, htc, hmap⟩
    have hmapne : l.filterMap mapToolCallFragment ≠ [] :=
      List.ne_nil_of_mem hmem
    have hdtc : deltaToolCallsOf e = some (l.filterMap mapToolCallFragment) := by
      simp [deltaToolCallsOf, hl, hlne, hf, hmapne]
    refine ⟨⟨deltaOf s e, e.finish_reason.join⟩,
      l.filterMap mapToolCallFragment, ?_, by simp [deltaOf, hdtc], hmem⟩
    simp [processEvent, deltaOf, hdtc]
  · intro x
    cases hid : tc.id with
    | none => simp [jsTruthy]
    | some y =>
      by_cases hy : y = ""
      · simp_all [jsTruthy]
      · simp_all [jsTruthy]
        aesop
  · intro h
    have : fn.name.isSome || fn.arguments.isSome := by
      rcases h with h | h <;> simp [h]
    simp [this]
  · intro h1 h2 x hx hxne
    simp [h1, h2, hx, jsTruthy, hxne]

/-- C5, witness for `intermediate_fragment_delta_shape`: a concrete opening
fragment `{index:0, id:"call_1", function:{name:"get_weather"}}`. -/
theorem intermediate_fragment_delta_shape_witness :
    ∃ entry : DeltaToolCall,
      mapToolCallFragment
          ⟨some "call_1", some 0, none, none,
           some ⟨some "get_weather", none⟩⟩ = some entry ∧
      (∃ c cs, (processEvent ⟨false, false⟩
          ⟨none, none,
           some [⟨some "call_1", some 0, none, none,
             some ⟨some "get_weather", none⟩⟩]⟩).2 = some c ∧
        c.delta.tool_calls = some cs ∧ entry ∈ cs) ∧
      entry.index = 0 ∧
      entry.type = "function" ∧
      (∀ x : String, entry.id = some x ↔
        (⟨some "call_1", some 0, none, none,
          some ⟨some "get_weather", none⟩⟩ : SSEToolCall).id = some x ∧
          x ≠ "") ∧
      (((some "get_weather" : Option String).isSome ∨
          (none : Option String).isSome) →
        entry.function = some ⟨some "get_weather", none⟩) ∧
      ((some "get_weather" : Option String) = none →
        (none : Option String) = none →
        ∀ x : String,
          (⟨some "call_1", some 0, none, none,
            some ⟨some "get_weather", none⟩⟩ : SSEToolCall).id = some x →
          x ≠ "" → entry.function = some ⟨none, none⟩) :=
  intermediate_fragment_delta_shape ⟨false, false⟩
    ⟨none, none,
     some [⟨some "call_1", some 0, none, none,
       some ⟨some "get_weather", none⟩⟩]⟩
    [⟨some "call_1", some 0, none, none, some ⟨some "get_weather", none⟩⟩]
    ⟨some "call_1", some 0, none, none, some ⟨some "get_weather", none⟩⟩
    0 ⟨some "get_weather", none⟩ (by decide) rfl (by simp) rfl rfl

/-! ## C10 -/

/-- An event carrying no text, no tool-call entries and a null/absent
`finish_reason` builds an empty delta and a null finish reason, so no
chunk is emitted and the per-request state is unchanged. -/
theorem processEvent_inert (s : StreamState) (e : RaycastSSEData)
    (h1 : e.text = none) (h2 : e.tool_calls.getD [] = [])
    (h3 : e.finish_reason.join = none) :
    processEvent s e = (s, none) := by
  have hfr : e.finish_reason = none ∨ e.finish_reason = some none := by
    cases hf : e.finish_reason with
    | none => exact Or.inl rfl
    | some x =>
      cases x with
      | none => exact Or.inr rfl
      | some v => rw [hf] at h3; simp [Option.join] at h3
  cases s with
  | mk f r =>
    rcases hfr with hfr | hfr <;>
      simp [processEvent, deltaOf, roleCondition, deltaContentOf,
        deltaToolCallsOf, finishTruthy, h1, h2, hfr]

/-- A prefix of single-event pushes whose events are all inert (no text,
no tool calls, null/absent finish reason) contributes nothing: the read
loop passes through them with the initial state intact. -/
theorem runPushes_inert_lead (prior : List RaycastSSEData)
    (rest : List (List SSELine))
    (hprior : ∀ p ∈ prior, p.text = none ∧ p.tool_calls.getD [] = [] ∧
      p.finish_reason.join = none) :
    runPushes ⟨false, false⟩
        (prior.map (fun p => [SSELine.event p]) ++ rest) =
      runPushes ⟨false, false⟩ rest := by
  induction prior with
  | nil => rfl
  | cons p prior ih =>
    obtain ⟨h1, h2, h3⟩ := hprior p (List.mem_cons_self p prior)
    have hstep : processEvent ⟨false, false⟩ p = (⟨false, false⟩, none) :=
      processEvent_inert _ p h1 h2 h3
    simp only [List.map_cons, List.cons_append, runPushes, processPush,
      processLine, hstep]
    simpa using ih (fun q hq => hprior q (List.mem_cons_of_mem p hq))

/-- C10, confirmed: for an upstream sequence whose only data-bearing event
is the terminal summary event (`finish_reason:"tool_calls"` with a
non-empty `tool_calls` array, no `text`, preceded only by events with no
text, no tool calls and no non-null finish reason), a chunk is still
emitted for that event, with delta exactly `{role:"assistant"}` (no
`content` key, no `tool_calls` key) and `finish_reason:"tool_calls"`:
role emission at index.ts line 403 is triggered by any non-empty
`tool_calls` field, even a terminal summary whose forwarding as a delta is
suppressed. -/
theorem role_emitted_on_terminal_summary (prior : List RaycastSSEData)
    (e : RaycastSSEData) (l : List SSEToolCall)
    (hprior : ∀ p ∈ prior, p.text = none ∧ p.tool_calls.getD [] = [] ∧
      p.finish_reason.join = none)
    (htext : e.text = none) (hl : e.tool_calls = some l) (hlne : l ≠ [])
    (hfin : e.finish_reason = some (some "tool_calls")) :
    handleStreamingResponse
        (prior.map (fun p => [SSELine.event p]) ++ [[SSELine.event e]]) =
      [StreamItem.chunk
         ⟨⟨some "assistant", none, none⟩, some "tool_calls"⟩,
       StreamItem.terminalMarker] := by
  unfold handleStreamingResponse
  rw [runPushes_inert_lead prior _ hprior]
  have hstep : processEvent ⟨false, false⟩ e =
      (⟨true, true⟩,
       some ⟨⟨some "assistant", none, none⟩, some "tool_calls"⟩) := by
    have hrole : roleCondition ⟨false, false⟩ e = true := by
      simp [roleCondition, hl, hlne]
    have hdtc : deltaToolCallsOf e = none := by
      simp [deltaToolCallsOf, hfin]
    simp [processEvent, deltaOf, deltaContentOf, hrole, hdtc, htext, hfin]
  simp [runPushes, processPush, processLine, hstep]

/-- C10, witness for `role_emitted_on_terminal_summary`: one inert
null-finish event followed by a concrete terminal summary event. -/
theorem role_emitted_on_terminal_summary_witness :
    handleStreamingResponse
        ((([⟨none, some none, none⟩] : List RaycastSSEData).map
            (fun p => [SSELine.event p])) ++
          [[SSELine.event
            ⟨none, some (some "tool_calls"),
             some [⟨some "call_1", none, some "f", some "{}", none⟩]⟩]]) =
      [StreamItem.chunk
         ⟨⟨some "assistant", none, none⟩, some "tool_calls"⟩,
       StreamItem.terminalMarker] :=
  role_emitted_on_terminal_summary [⟨none, some none, none⟩]
    ⟨none, some (some "tool_calls"),
     some [⟨some "call_1", none, some "f", some "{}", none⟩]⟩
    [⟨some "call_1", none, some "f", some "{}", none⟩]
    (by decide) rfl rfl (by decide) rfl

/-! ## C8 -/

/-- Folding step for the last non-null, non-undefined `finish_reason`
observed on a line (malformed / `[DONE]` / non-`data:` lines observe
nothing). -/
def lastFinishStep (acc : Option String) (l : SSELine) : Option String :=
  match l with
  | .event e =>
    match e.finish_reason with
    | some (some s) => some s
    | _ => acc
  | _ => acc

/-- The last non-null, non-undefined `finish_reason` observed across the
whole upstream sequence (the quantity named by the aggregator clause of
the spec). -/
def lastObservedFinish (lines : List SSELine) : Option String :=
  lines.foldl lastFinishStep none

theorem parseEvent_finishReason (acc : ParseAcc) (e : RaycastSSEData) :
    (parseEvent acc e).finishReason =
      match e.finish_reason with
      | some (some s) => some s
      | _ => acc.finishReason := by
  rcases e with ⟨t, fr, tc⟩
  rcases fr with _ | fr
  · simp only [parseEvent]
    split <;> (try split) <;> simp_all
  · rcases fr with _ | s <;>
      · simp only [parseEvent]
        split <;> (try split) <;> simp_all

theorem parse_finishReason_eq (lines : List SSELine) :
    (parseSSEResponse lines).finishReason = lastObservedFinish lines := by
  suffices h : ∀ acc : ParseAcc,
      (lines.foldl parseLine acc).finishReason =
        lines.foldl lastFinishStep acc.finishReason from
    h ⟨"", none, none⟩
  induction lines with
  | nil => intro acc; rfl
  | cons l ls ih =>
    intro acc
    rw [List.foldl_cons, List.foldl_cons, ih]
    congr 1
    cases l with
    | event e => exact parseEvent_finishReason acc e
    | notData => rfl
    | doneMarker => rfl
    | malformed => rfl

/-- C8, counterexample: for the single event `{finish_reason:""}` the last
observed non-null, non-undefined `finish_reason` is `""`, but the code
reports `"stop"`: `finishReason || "stop"` at index.ts line 537 also
replaces an observed empty-string finish reason, not only an absent one. -/
theorem empty_finish_reason_reported_as_stop :
    ¬ ((handleNonStreamingResponse
          [SSELine.event ⟨none, some (some ""), none⟩]).finish_reason =
        (lastObservedFinish
          [SSELine.event ⟨none, some (some ""), none⟩]).getD "stop") := by
  decide

/-- `choices[0].finish_reason` of the buffered response is
`finishReason || "stop"` applied to the parse result, whichever branch
builds the message. -/
theorem handleNonStreaming_finish (lines : List SSELine) :
    (handleNonStreamingResponse lines).finish_reason =
      jsStr (jsOr (parseSSEResponse lines).finishReason (some "stop")) := by
  unfold handleNonStreamingResponse
  generalize parseSSEResponse lines = r
  by_cases h1 : jsStr (jsOr r.finishReason (some "stop")) = "tool_calls"
  · simp [h1]
  · by_cases h2 : r.toolCalls.getD [] = [] <;> simp [h1, h2]

/-- C8, amended: in buffered mode the reported `finish_reason` equals the
last non-null, non-undefined `finish_reason` observed across the whole
sequence when that value is non-empty, and equals `"stop"` when none was
ever observed (including source exhaustion) or when the last observed
value is the empty string (a consequence of JavaScript `||`). -/
theorem buffered_finish_reason_folding (lines : List SSELine) :
    (handleNonStreamingResponse lines).finish_reason =
      match lastObservedFinish lines with
      | some s => if s = "" then "stop" else s
      | none => "stop" := by
  rw [handleNonStreaming_finish, parse_finishReason_eq]
  cases hlf : lastObservedFinish lines with
  | none => simp [jsOr, jsTruthy, jsStr]
  | some s =>
    by_cases hs : s = "" <;> simp [jsOr, jsTruthy, jsStr, hs]

/-! ## C7 -/

/-- The tool-call records a single event contributes to the final list:
on an event with `finish_reason:"tool_calls"` and a non-empty `tool_calls`
array, every entry whose `id` is present and non-empty, whose name
(top-level `name`, falling back to `function.name` when the former is
absent or empty) is non-empty, and whose arguments (top-level `arguments`,
falling back to `function.arguments` when the former is absent or empty)
resolve to a defined value — irrespective of any `index` field.  Other
events contribute nothing. -/
def terminalEntriesOf (e : RaycastSSEData) : List ParsedToolCall :=
  if e.finish_reason = some (some "tool_calls") ∧ e.tool_calls.getD [] ≠ []
  then (e.tool_calls.getD []).filterMap parseEntry
  else []

/-- Folding step for the final tool-call list: the latest event with at
least one contributing entry wins (earlier collections are overwritten,
empty collections leave the previous one in place). -/
def collectStep (acc : List ParsedToolCall) (l : SSELine) :
    List ParsedToolCall :=
  match l with
  | .event e => if terminalEntriesOf e ≠ [] then terminalEntriesOf e else acc
  | _ => acc

/-- The tool-call records collected over the whole upstream sequence. -/
def collectedSummaries (lines : List SSELine) : List ParsedToolCall :=
  lines.foldl collectStep []

theorem parseEvent_toolCalls (acc : ParseAcc) (e : RaycastSSEData) :
    (parseEvent acc e).toolCalls =
      if terminalEntriesOf e ≠ [] then some (terminalEntriesOf e)
      else acc.toolCalls := by
  by_cases hc : e.finish_reason = some (some "tool_calls") ∧
      e.tool_calls.getD [] ≠ []
  · by_cases hp : (e.tool_calls.getD []).filterMap parseEntry = [] <;>
      · simp only [parseEvent, terminalEntriesOf, if_pos hc, hp]
        rcases e with ⟨t, fr, tc⟩
        obtain ⟨hfr, _⟩ := hc
        subst hfr
        split <;> simp_all [apply_ite ParseAcc.toolCalls]
  · simp only [parseEvent, terminalEntriesOf, if_neg hc]
    rcases e with ⟨t, fr, tc⟩
    rcases fr with _ | fr
    · split <;> simp_all [apply_ite ParseAcc.toolCalls]
    · rcases fr with _ | s
      · split <;> simp_all [apply_ite ParseAcc.toolCalls]
      · simp only [ne_eq, not_and] at hc
        split <;> simp_all [apply_ite ParseAcc.toolCalls]

theorem parse_toolCalls_eq (lines : List SSELine) :
    (parseSSEResponse lines).toolCalls =
      if collectedSummaries lines = [] then none
      else some (collectedSummaries lines) := by
  suffices h : ∀ (acc : ParseAcc) (t : List ParsedToolCall),
      (acc.toolCalls = if t = [] then none else some t) →
        (lines.foldl parseLine acc).toolCalls =
          if lines.foldl collectStep t = [] then none
          else some (lines.foldl collectStep t) from
    h ⟨"", none, none⟩ [] rfl
  induction lines with
  | nil => intro acc t ht; exact ht
  | cons l ls ih =>
    intro acc t ht
    rw [List.foldl_cons, List.foldl_cons]
    refine ih (parseLine acc l) (collectStep t l) ?_
    cases l with
    | notData => exact ht
    | doneMarker => exact ht
    | malformed => exact ht
    | event e =>
      rw [show parseLine acc (SSELine.event e) = parseEvent acc e from rfl,
        parseEvent_toolCalls, show collectStep t (SSELine.event e) =
          if terminalEntriesOf e ≠ [] then terminalEntriesOf e else t from rfl]
      by_cases he : terminalEntriesOf e = [] <;> simp [he, ht]

/-- C7, counterexample: for the single event
`{finish_reason:"tool_calls",
tool_calls:[{id:"call_1", name:"f", arguments:""}]}` the entry matches the
terminal shape (`id`, `name`, `arguments` all present, no `index`), so the
claim demands it be collected and mapped; but `tc.arguments || ...` at
index.ts line 192 treats the empty-string `arguments` as absent, the entry
is filtered out, and the code emits an empty `tool_calls` array instead of
the mapped singleton. -/
theorem empty_arguments_summary_dropped :
    (handleNonStreamingResponse
        [SSELine.event ⟨none, some (some "tool_calls"),
          some [⟨some "call_1", none, some "f", some "", none⟩]⟩]) =
      ⟨⟨none, some []⟩, "tool_calls"⟩ ∧
    ((⟨some "call_1", none, some "f", some "", none⟩ : SSEToolCall).id.isSome
      ∧ (⟨some "call_1", none, some "f", some "",
          none⟩ : SSEToolCall).name.isSome
      ∧ (⟨some "call_1", none, some "f", some "",
          none⟩ : SSEToolCall).arguments.isSome
      ∧ (⟨some "call_1", none, some "f", some "",
          none⟩ : SSEToolCall).index = none) ∧
    (some ([] : List OutToolCall) ≠
      some [toOutToolCall ⟨"call_1", "f", ""⟩]) := by decide

/-- C7, amended: in buffered mode, when the reported finish reason is
`"tool_calls"`, the final message has `content` null and `tool_calls`
equal to the collected records of `collectedSummaries` (entries of
`finish_reason:"tool_calls"` events with non-empty resolved `id`/`name`
and defined resolved `arguments`, resolution falling back from the
top-level field through `function.*`, an `index` field being irrelevant),
each mapped to `{ id, type:"function", function: { name, arguments } }`;
when nothing was collected despite this finish reason the result is the
empty `tool_calls` array (with a diagnostic), not a failure. -/
theorem buffered_tool_calls_result (lines : List SSELine)
    (h : (handleNonStreamingResponse lines).finish_reason = "tool_calls") :
    (handleNonStreamingResponse lines).message.content = none ∧
      (handleNonStreamingResponse lines).message.tool_calls =
        some ((collectedSummaries lines).map toOutToolCall) := by
  have hf : jsStr (jsOr (parseSSEResponse lines).finishReason (some "stop"))
      = "tool_calls" := by
    rw [← handleNonStreaming_finish]; exact h
  have htc := parse_toolCalls_eq lines
  unfold handleNonStreamingResponse
  by_cases hc : collectedSummaries lines = []
  · rw [hc] at htc
    simp only [if_pos rfl] at htc
    simp [hf, htc, hc]
  · rw [if_neg hc] at htc
    simp [hf, htc, hc]

/-- C7, witness for `buffered_tool_calls_result`: a concrete terminal
summary `{id:"call_1", name:"get_weather", arguments:"{}"}`. -/
theorem buffered_tool_calls_result_witness :
    (handleNonStreamingResponse
        [SSELine.event ⟨none, some (some "tool_calls"),
          some [⟨some "call_1", none, some "get_weather", some "{}",
            none⟩]⟩]).finish_reason = "tool_calls" ∧
    ((handleNonStreamingResponse
        [SSELine.event ⟨none, some (some "tool_calls"),
          some [⟨some "call_1", none, some "get_weather", some "{}",
            none⟩]⟩]).message.content = none ∧
      (handleNonStreamingResponse
          [SSELine.event ⟨none, some (some "tool_calls"),
            some [⟨some "call_1", none, some "get_weather", some "{}",
              none⟩]⟩]).message.tool_calls =
        some ((collectedSummaries
            [SSELine.event ⟨none, some (some "tool_calls"),
              some [⟨some "call_1", none, some "get_weather", some "{}",
                none⟩]⟩]).map toOutToolCall)) :=
  ⟨by decide,
   buffered_tool_calls_result
     [SSELine.event ⟨none, some (some "tool_calls"),
       some [⟨some "call_1", none, some "get_weather", some "{}", none⟩]⟩]
     (by decide)⟩

/-! ## C3 -/

/-- In-order concatenation of every event's `text` value (absent read as
empty) — the reference value both modes are compared against. -/
def textConcat : List RaycastSSEData → String
  | [] => ""
  | e :: es => jsStr e.text ++ textConcat es

/-- The `delta.content` string carried by one chunk, an omitted `content`
key (or an explicit `null`) reading as the empty string. -/
def chunkContentStr (c : OpenAIChunk) : String :=
  match c.delta.content with
  | some (some t) => t
  | _ => ""

/-- In-order concatenation of the `delta.content` values of a chunk
sequence. -/
def contentConcat : List OpenAIChunk → String
  | [] => ""
  | c :: cs => chunkContentStr c ++ contentConcat cs

/-- The content contribution of an optional chunk. -/
def optContentStr (oc : Option OpenAIChunk) : String :=
  match oc with
  | some c => chunkContentStr c
  | none => ""

theorem contentConcat_toList_append (oc : Option OpenAIChunk)
    (cs : List OpenAIChunk) :
    contentConcat (oc.toList ++ cs) = optContentStr oc ++ contentConcat cs := by
  cases oc with
  | none => rfl
  | some c => rfl

theorem contentConcat_append (a b : List OpenAIChunk) :
    contentConcat (a ++ b) = contentConcat a ++ contentConcat b := by
  induction a with
  | nil => rfl
  | cons c cs ih => rw [List.cons_append]; simp [contentConcat, ih,
      String.append_assoc]

theorem textConcat_append (a b : List RaycastSSEData) :
    textConcat (a ++ b) = textConcat a ++ textConcat b := by
  induction a with
  | nil => rfl
  | cons e es ih => rw [List.cons_append]; simp [textConcat, ih,
      String.append_assoc]

theorem parseEvent_fullText (acc : ParseAcc) (e : RaycastSSEData) :
    (parseEvent acc e).fullText = acc.fullText ++ jsStr e.text := by
  rcases e with ⟨t, fr, tc⟩
  rcases fr with _ | (_ | s) <;>
    rcases t with _ | t <;>
      simp_all [parseEvent, jsTruthy, jsStr, apply_ite ParseAcc.fullText]

theorem parse_fullText_eq (events : List RaycastSSEData) :
    (parseSSEResponse (events.map SSELine.event)).fullText =
      textConcat events := by
  suffices h : ∀ acc : ParseAcc,
      ((events.map SSELine.event).foldl parseLine acc).fullText =
        acc.fullText ++ textConcat events by
    simpa using h ⟨"", none, none⟩
  induction events with
  | nil => intro acc; simp [textConcat]
  | cons e es ih =>
    intro acc
    rw [List.map_cons, List.foldl_cons]
    rw [show parseLine acc (SSELine.event e) = parseEvent acc e from rfl]
    rw [ih (parseEvent acc e), parseEvent_fullText, textConcat,
      String.append_assoc]

theorem lastFinish_fold_ne (events : List RaycastSSEData) (acc : Option String)
    (hacc : acc ≠ some "tool_calls")
    (h : ∀ e ∈ events, e.finish_reason ≠ some (some "tool_calls")) :
    (events.map SSELine.event).foldl lastFinishStep acc ≠
      some "tool_calls" := by
  induction events generalizing acc with
  | nil => exact hacc
  | cons e es ih =>
    rw [List.map_cons, List.foldl_cons]
    refine ih _ ?_ (fun q hq => h q (List.mem_cons_of_mem e hq))
    have he := h e (List.mem_cons_self e es)
    rcases hfr : e.finish_reason with _ | (_ | s) <;>
      simp_all [lastFinishStep]

theorem collected_nil (events : List RaycastSSEData)
    (h : ∀ e ∈ events, e.finish_reason ≠ some (some "tool_calls")) :
    collectedSummaries (events.map SSELine.event) = [] := by
  suffices hs : ∀ acc : List ParsedToolCall,
      (events.map SSELine.event).foldl collectStep acc = acc from
    hs []
  induction events with
  | nil => intro acc; rfl
  | cons e es ih =>
    intro acc
    rw [List.map_cons, List.foldl_cons]
    have he : terminalEntriesOf e = [] := by
      simp [terminalEntriesOf, h e (List.mem_cons_self e es)]
    rw [show collectStep acc (SSELine.event e) =
      (if terminalEntriesOf e ≠ [] then terminalEntriesOf e else acc)
      from rfl, he]
    simpa using ih (fun q hq => h q (List.mem_cons_of_mem e hq)) acc

theorem finalFinish_ne_toolcalls (fr : Option String)
    (h : fr ≠ some "tool_calls") :
    jsStr (jsOr fr (some "stop")) ≠ "tool_calls" := by
  cases fr with
  | none => simp [jsOr, jsTruthy, jsStr]
  | some s =>
    by_cases hs : s = "" <;> simp_all [jsOr, jsTruthy, jsStr]

theorem buffered_content_eq_fullText (lines : List SSELine)
    (hfr : jsStr (jsOr (parseSSEResponse lines).finishReason (some "stop")) ≠
      "tool_calls")
    (htc : (parseSSEResponse lines).toolCalls = none) :
    (handleNonStreamingResponse lines).message.content =
      some (parseSSEResponse lines).fullText := by
  unfold handleNonStreamingResponse
  simp [hfr, htc]

theorem processEvent_content_no_toolcalls (s : StreamState)
    (e : RaycastSSEData) (h2 : e.tool_calls.getD [] = []) :
    optContentStr (processEvent s e).2 = jsStr e.text := by
  rcases e with ⟨t, fr, tc⟩
  have hdtc : deltaToolCallsOf ⟨t, fr, tc⟩ = none := by
    simp [deltaToolCallsOf, h2]
  rcases fr with _ | (_ | v) <;> rcases t with _ | t <;>
    simp only [processEvent, deltaOf, deltaContentOf, hdtc] <;>
      split <;> (try split) <;> (try split) <;>
        simp_all [optContentStr, chunkContentStr, jsStr, finishTruthy]

theorem processPush_content_no_toolcalls (s : StreamState)
    (events : List RaycastSSEData)
    (h : ∀ e ∈ events, e.tool_calls.getD [] = []) :
    contentConcat (processPush s (events.map SSELine.event)).2 =
        textConcat events ∧
      (processPush s (events.map SSELine.event)).1.streamFinished =
        (s.streamFinished ||
          events.any (fun e => e.finish_reason.join.isSome)) := by
  induction events generalizing s with
  | nil => exact ⟨rfl, by simp [processPush]⟩
  | cons e es ih =>
    obtain ⟨ihc, ihs⟩ := ih (processEvent s e).1
      (fun q hq => h q (List.mem_cons_of_mem e hq))
    constructor
    · rw [List.map_cons,
        show processPush s (SSELine.event e :: es.map SSELine.event) =
          ((processPush (processEvent s e).1 (es.map SSELine.event)).1,
           (processEvent s e).2.toList ++
             (processPush (processEvent s e).1 (es.map SSELine.event)).2)
          from rfl]
      rw [show ((processPush (processEvent s e).1 (es.map SSELine.event)).1,
          (processEvent s e).2.toList ++
            (processPush (processEvent s e).1 (es.map SSELine.event)).2).2 =
          (processEvent s e).2.toList ++
            (processPush (processEvent s e).1 (es.map SSELine.event)).2
          from rfl]
      rw [contentConcat_toList_append,
        processEvent_content_no_toolcalls s e (h e (List.mem_cons_self e es)),
        ihc, textConcat]
    · rw [List.map_cons,
        show (processPush s (SSELine.event e :: es.map SSELine.event)).1 =
          (processPush (processEvent s e).1 (es.map SSELine.event)).1
          from rfl]
      rw [ihs,
        show (processEvent s e).1.streamFinished =
          (s.streamFinished || e.finish_reason.join.isSome) from rfl]
      simp [Bool.or_assoc]

theorem runPushes_all_empty (s : StreamState) (P : List (List SSELine))
    (hP : ∀ q ∈ P, q = ([] : List SSELine)) :
    (runPushes s P).2 = [] := by
  induction P generalizing s with
  | nil => rfl
  | cons q P ih =>
    by_cases hs : s.streamFinished
    · simp [runPushes, hs]
    · rw [hP q (List.mem_cons_self q P)]
      simp only [runPushes, if_neg hs]
      simpa [processPush] using
        ih s (fun r hr => hP r (List.mem_cons_of_mem q hr))

theorem runPushes_content_no_toolcalls
    (pushes : List (List RaycastSSEData)) (s : StreamState)
    (hs : s.streamFinished = false)
    (h1 : ∀ e ∈ pushes.flatten, e.tool_calls.getD [] = [])
    (h2 : ∀ e ∈ pushes.flatten.dropLast, e.finish_reason.join = none) :
    contentConcat
        (runPushes s (pushes.map (List.map SSELine.event))).2 =
      textConcat pushes.flatten := by
  induction pushes generalizing s with
  | nil => rfl
  | cons p P ih =>
    have hflat : (p :: P).flatten = p ++ P.flatten := rfl
    have h1p : ∀ e ∈ p, e.tool_calls.getD [] = [] :=
      fun e he => h1 e (by rw [hflat]; exact List.mem_append_left _ he)
    obtain ⟨hpc, hps⟩ := processPush_content_no_toolcalls s p h1p
    rw [List.map_cons]
    simp only [runPushes, hs, Bool.false_eq_true, if_false]
    rw [contentConcat_append, hpc, hflat, textConcat_append]
    rw [hs] at hps
    by_cases hfin : p.any (fun e => e.finish_reason.join.isSome) = true
    · have hPnil : P.flatten = [] := by
        by_contra hne
        obtain ⟨b, q, hbq⟩ := List.exists_cons_of_ne_nil hne
        obtain ⟨e, he, hej⟩ := List.any_eq_true.mp hfin
        have hmem : e ∈ ((p :: P).flatten).dropLast := by
          rw [hflat, hbq, List.dropLast_append_cons]
          exact List.mem_append_left _ he
        rw [h2 e hmem] at hej
        cases hej
      have hrest : (runPushes (processPush s
          (p.map SSELine.event)).1 (P.map (List.map SSELine.event))).2 = [] := by
        refine runPushes_all_empty _ _ (fun q hq => ?_)
        obtain ⟨q0, hq0, rfl⟩ := List.mem_map.mp hq
        rw [List.flatten_eq_nil_iff] at hPnil
        rw [hPnil q0 hq0]
        rfl
      rw [hrest, hPnil]
      simp [contentConcat, textConcat]
    · have hps' : (processPush s (p.map SSELine.event)).1.streamFinished =
          false := by
        rw [hps]
        simpa using hfin
      have h1P : ∀ e ∈ P.flatten, e.tool_calls.getD [] = [] :=
        fun e he => h1 e (by rw [hflat]; exact List.mem_append_right _ he)
      have h2P : ∀ e ∈ P.flatten.dropLast, e.finish_reason.join = none := by
        intro e he
        have hPne : P.flatten ≠ [] := by
          intro h0
          rw [h0] at he
          cases he
        obtain ⟨b, q, hbq⟩ := List.exists_cons_of_ne_nil hPne
        refine h2 e ?_
        rw [hflat, hbq, List.dropLast_append_cons]
        rw [hbq] at he
        exact List.mem_append_right _ he
      rw [ih _ hps' h1P h2P]

/-- C3, counterexample, two event sequences with no tool calls anywhere on
which the claimed equality fails.  First, for `{text:"A"}`,
`{finish_reason:"tool_calls"}` the buffered aggregator nulls `content`
(the folded finish reason is `"tool_calls"`, index.ts line 540) while the
streaming deltas concatenate to `"A"`.  Second, for
`{text:"A", finish_reason:"stop"}`, `{text:"B"}` delivered as two byte
pushes, the streaming read loop stops after the finishing event's push and
concatenates only `"A"`, while the aggregator reads the whole sequence and
produces `"AB"`. -/
theorem content_equality_fails_without_toolcalls :
    ((∀ e ∈ [(⟨some "A", none, none⟩ : RaycastSSEData),
        ⟨none, some (some "tool_calls"), none⟩], e.tool_calls.getD [] = []) ∧
     contentConcat
        (runPushes ⟨false, false⟩
          [[SSELine.event ⟨some "A", none, none⟩,
            SSELine.event ⟨none, some (some "tool_calls"), none⟩]]).2 = "A" ∧
     ¬ ((handleNonStreamingResponse
          [SSELine.event ⟨some "A", none, none⟩,
           SSELine.event ⟨none, some (some "tool_calls"), none⟩]).message.content
        = some (contentConcat
            (runPushes ⟨false, false⟩
              [[SSELine.event ⟨some "A", none, none⟩,
                SSELine.event ⟨none, some (some "tool_calls"), none⟩]]).2))) ∧
    ((∀ e ∈ [(⟨some "A", some (some "stop"), none⟩ : RaycastSSEData),
        ⟨some "B", none, none⟩], e.tool_calls.getD [] = []) ∧
     (handleNonStreamingResponse
        [SSELine.event ⟨some "A", some (some "stop"), none⟩,
         SSELine.event ⟨some "B", none, none⟩]).message.content = some "AB" ∧
     ¬ ((handleNonStreamingResponse
          [SSELine.event ⟨some "A", some (some "stop"), none⟩,
           SSELine.event ⟨some "B", none, none⟩]).message.content
        = some (contentConcat
            (runPushes ⟨false, false⟩
              [[SSELine.event ⟨some "A", some (some "stop"), none⟩],
               [SSELine.event ⟨some "B", none, none⟩]]).2))) := by
  decide

/-- C3, amended: for every upstream event sequence containing no tool
calls, in which no event carries `finish_reason:"tool_calls"` and any
event with a non-null `finish_reason` occurs only in final position, and
for every division of the sequence into byte pushes, the buffered
aggregator's `content` equals the in-order concatenation of the
streaming-mode `delta.content` values (omitted keys read as empty).  (The
two restrictions are forced by the code: a `"tool_calls"` finish reason
nulls the buffered content, and a non-final finishing event stops the
streaming read loop at its push boundary while the aggregator keeps
reading.) -/
theorem streaming_buffered_content_agree (events : List RaycastSSEData)
    (pushes : List (List RaycastSSEData))
    (hflat : pushes.flatten = events)
    (hnotool : ∀ e ∈ events, e.tool_calls.getD [] = [])
    (hnofin : ∀ e ∈ events, e.finish_reason ≠ some (some "tool_calls"))
    (hlast : ∀ e ∈ events.dropLast, e.finish_reason.join = none) :
    (handleNonStreamingResponse
        (events.map SSELine.event)).message.content =
      some (contentConcat
        (runPushes ⟨false, false⟩
          (pushes.map (List.map SSELine.event))).2) := by
  subst hflat
  have hstream := runPushes_content_no_toolcalls pushes ⟨false, false⟩
    rfl hnotool hlast
  have hlf : lastObservedFinish (pushes.flatten.map SSELine.event) ≠
      some "tool_calls" :=
    lastFinish_fold_ne pushes.flatten none (by simp) hnofin
  have hfr : (parseSSEResponse
      (pushes.flatten.map SSELine.event)).finishReason ≠ some "tool_calls" := by
    rw [parse_finishReason_eq]
    exact hlf
  have hcoll : collectedSummaries (pushes.flatten.map SSELine.event) = [] :=
    collected_nil pushes.flatten hnofin
  have htc : (parseSSEResponse
      (pushes.flatten.map SSELine.event)).toolCalls = none := by
    rw [parse_toolCalls_eq, hcoll]
    rfl
  rw [buffered_content_eq_fullText _ (finalFinish_ne_toolcalls _ hfr) htc,
    parse_fullText_eq, hstream]

/-- C3, witness for `streaming_buffered_content_agree`: the `"Hel"`/`"lo"`
sequence with a final `stop` event, delivered as three pushes. -/
theorem streaming_buffered_content_agree_witness :
    (handleNonStreamingResponse
        (([⟨some "Hel", none, none⟩, ⟨some "lo", none, none⟩,
          ⟨some "", some (some "stop"), none⟩] :
            List RaycastSSEData).map SSELine.event)).message.content =
      some (contentConcat
        (runPushes ⟨false, false⟩
          (([[⟨some "Hel", none, none⟩], [⟨some "lo", none, none⟩],
            [⟨some "", some (some "stop"), none⟩]] :
              List (List RaycastSSEData)).map
            (List.map SSELine.event))).2) :=
  streaming_buffered_content_agree
    [⟨some "Hel", none, none⟩, ⟨some "lo", none, none⟩,
     ⟨some "", some (some "stop"), none⟩]
    [[⟨some "Hel", none, none⟩], [⟨some "lo", none, none⟩],
     [⟨some "", some (some "stop"), none⟩]]
    rfl (by decide) (by decide) (by decide)
